import Mathlib

/-
Verification development for the py-spy observability harness of the
fastapi-template repository. The definitions below are a shallow embedding
of src/scripts/spy/report.py (class PerformanceReportGenerator) and
src/scripts/spy/monitor.py. Python dicts with insertion order are embedded
as association lists; machine integers are Int; the fallible ingestion
path (sys.exit on a parse error) is embedded as Option; float percentages
are embedded as exact rationals.
-/

namespace Spy

/-- The frequency table self.data: a defaultdict(int) from frame name to
sample count, embedded as an association list in insertion order. -/
abbrev Table := List (String × Int)

/-- The Python statement data[k] += v on a defaultdict(int): update the
entry for k in place if present, otherwise append (k, v) at the end
(insertion order is preserved, new keys go last). -/
def addCount : Table → String → Int → Table
  | [], k, v => [(k, v)]
  | (k₁, v₁) :: rest, k, v =>
      if k₁ = k then (k₁, v₁ + v) :: rest else (k₁, v₁) :: addCount rest k v

/-- Dictionary lookup with the defaultdict default 0 (first matching key). -/
def lookupD : Table → String → Int
  | [], _ => 0
  | (k₁, v₁) :: rest, k => if k₁ = k then v₁ else lookupD rest k

/-- The keys of the table, in insertion order. -/
def keysOf (d : Table) : List String := d.map Prod.fst

/-- sum(data.values()). -/
def sumOf (d : Table) : Int := (d.map Prod.snd).sum

/-- The characters Python str.strip() removes by default. -/
def pyIsSpace (c : Char) : Bool :=
  c = ' ' || c = '\t' || c = '\n' || c = '\r' || c = '\x0b' || c = '\x0c'

/-- Python line.strip(): drop whitespace from both ends. -/
def pyStrip (s : String) : String :=
  ⟨(((s.data.dropWhile pyIsSpace).reverse.dropWhile pyIsSpace).reverse)⟩

/-- Python s.split(sep) for a one-character separator, accumulating the
current field in reverse. -/
def splitTabAux : List Char → List Char → List (List Char)
  | [], acc => [acc.reverse]
  | c :: rest, acc =>
      if c = '\t' then acc.reverse :: splitTabAux rest []
      else splitTabAux rest (c :: acc)

def splitTab (s : String) : List String :=
  (splitTabAux s.data []).map (fun cs => ⟨cs⟩)

/-- Python func.lower() on ASCII letters; non-ASCII case mapping is not
modelled (every keyword of the taxonomy is ASCII). -/
def lowerChar (c : Char) : Char :=
  if 'A' ≤ c ∧ c ≤ 'Z' then Char.ofNat (c.toNat + 32) else c

def lowerStr (s : String) : String := ⟨s.data.map lowerChar⟩

/-- Python int(s) on an ASCII decimal literal: optional surrounding
whitespace, optional sign, then a nonempty digit string; anything else
raises ValueError, embedded as none. Digit-grouping underscores and
non-ASCII digits are not modelled. -/
def digitsToNat (cs : List Char) : Option Nat :=
  if cs.isEmpty then none
  else if cs.all Char.isDigit then
    some (cs.foldl (fun a c => a * 10 + (c.toNat - 48)) 0)
  else none

def pyInt (s : String) : Option Int :=
  match (pyStrip s).data with
  | [] => none
  | c :: cs =>
      if c = '-' then (digitsToNat cs).map (fun n => -(n : Int))
      else if c = '+' then (digitsToNat cs).map (fun n => (n : Int))
      else (digitsToNat (c :: cs)).map (fun n => (n : Int))

/-- The loop body of PerformanceReportGenerator._parse_json for one line
of the artifact: a line containing a tab is stripped and split on tabs; if
it yields at least two fields the second is parsed as an int and added to
the table, and a failing int parse aborts the whole ingestion (the except
branch calls sys.exit(1), embedded as none); every other line is skipped. -/
def parseStep (d : Table) (line : String) : Option Table :=
  if '\t' ∈ line.data then
    match splitTab (pyStrip line) with
    | f :: c :: _ =>
        match pyInt c with
        | some n => some (addCount d f n)
        | none => none
    | _ => some d
  else some d

/-- The line loop of _parse_json: fold parseStep over the lines, stopping
at the first aborting line. -/
def parseLines : Table → List String → Option Table
  | d, [] => some d
  | d, line :: rest =>
      match parseStep d line with
      | some d₁ => parseLines d₁ rest
      | none => none

def _parse_json (lines : List String) : Option Table :=
  parseLines [] lines

/-- What one line does to the ingestion, used to state the line-level
lemmas: skipped, added as (frame, count), or aborting the ingestion. -/
inductive LineEffect where
  | skip
  | add (f : String) (n : Int)
  | abort
  deriving DecidableEq

def lineEffect (line : String) : LineEffect :=
  if '\t' ∈ line.data then
    match splitTab (pyStrip line) with
    | f :: c :: _ =>
        match pyInt c with
        | some n => .add f n
        | none => .abort
    | _ => .skip
  else .skip

/-- The count a line contributes to the table, if any. -/
def lineVal (line : String) : Option Int :=
  match lineEffect line with
  | .add _ n => some n
  | _ => none

/-- The frame name a line contributes to the table, if any. -/
def lineName (line : String) : Option String :=
  match lineEffect line with
  | .add f _ => some f
  | _ => none

/-- PerformanceReportGenerator._parse_svg. The regex engine is not
embedded: the input is the list of fragments matched by the pattern over
the artifact, each given as the captured frame-name group paired with the
embedded numeric sample value N of its title. The loop adds 1 to the
stripped frame name for each match; N is never read. -/
def _parse_svg (fragments : List (String × Nat)) : Table :=
  fragments.foldl (fun d f => addCount d (pyStrip f.1) 1) []

/-- The keyword lists of _categorize_function, in source order. -/
def asyncKeywords : List String := ["await", "coroutine", "async"]
def dbKeywords : List String := ["sql", "query", "mysql", "select", "insert"]
def cacheKeywords : List String := ["redis", "cache", "get", "set"]
def httpKeywords : List String := ["uvicorn", "httptools", "request"]
def securityKeywords : List String := ["security", "jwt", "auth"]
def serializationKeywords : List String := ["render", "template", "json"]

/-- Python: kw in func_lower (substring containment): some suffix of s
starts with kw. -/
def containsKw (s kw : String) : Bool :=
  (s.data.tails).any kw.data.isPrefixOf

/-- any(kw in func_lower for kw in kws). -/
def hasAnyKw (s : String) (kws : List String) : Bool :=
  kws.any (containsKw s)

/-- PerformanceReportGenerator._categorize_function: first matching
keyword list over the lowercased name wins, in this fixed order. -/
def _categorize_function (func : String) : String :=
  let fl := lowerStr func
  if hasAnyKw fl asyncKeywords then "async_io"
  else if hasAnyKw fl dbKeywords then "database"
  else if hasAnyKw fl cacheKeywords then "cache"
  else if hasAnyKw fl httpKeywords then "http"
  else if hasAnyKw fl securityKeywords then "security"
  else if hasAnyKw fl serializationKeywords then "serialization"
  else "other"

/-- Insert an entry into a list already sorted by descending count,
before the first entry whose count is not larger: the insertion step of a
stable descending sort, matching Python sorted(key, reverse=True), which
keeps the original relative order of entries with equal counts. -/
def insertDesc (x : String × Int) : List (String × Int) → List (String × Int)
  | [] => [x]
  | y :: ys => if x.2 ≥ y.2 then x :: y :: ys else y :: insertDesc x ys

/-- sorted(self.data.items(), key=count, reverse=True): stable sort by
descending count over the table in insertion order. -/
def sortDesc : List (String × Int) → List (String × Int)
  | [] => []
  | x :: xs => insertDesc x (sortDesc xs)

/-- The analysis dict built by PerformanceReportGenerator.analyze. The
per-entry percentage field of top_functions (a derived float no claim
depends on) is not carried; top_functions keeps (function, samples). -/
structure Analysis where
  total_samples : Int
  unique_functions : Nat
  top_functions : List (String × Int)
  categories : Table
  deriving DecidableEq

/-- PerformanceReportGenerator.analyze: total over the whole table, the
top 50 of the descending stable sort, and category totals accumulated
only over those top-50 entries (the loop runs over sorted_data[:50]). -/
def analyze (d : Table) : Analysis :=
  let total := sumOf d
  let top := (sortDesc d).take 50
  let cats := top.foldl (fun acc p => addCount acc (_categorize_function p.1) p.2) []
  ⟨total, d.length, top, cats⟩

/-- One recommendation block of _generate_recommendations, identified by
its triggering branch; threshold branches carry the percentage printed in
their header line. The concrete message strings are presentation only. -/
inductive Recommendation where
  | database (pct : ℚ)
  | async_io (pct : ℚ)
  | cache (pct : ℚ)
  | noBottleneck
  | insufficientData
  deriving DecidableEq

/-- PerformanceReportGenerator._generate_recommendations: on zero total,
only the insufficient-data message; otherwise one block per category in
table order whose share exceeds its threshold (database 20, async_io 30,
cache 15), and the no-bottleneck message when none triggered. The share
is count / total * 100 guarded by total > 0, as in the source. -/
def _generate_recommendations (total : Int) (categories : Table) : List Recommendation :=
  if total = 0 then [.insufficientData]
  else
    let recs := categories.foldl (fun acc p =>
      let pct : ℚ := if 0 < total then (p.2 : ℚ) / (total : ℚ) * 100 else 0
      if p.1 = "database" ∧ pct > 20 then acc ++ [.database pct]
      else if p.1 = "async_io" ∧ pct > 30 then acc ++ [.async_io pct]
      else if p.1 = "cache" ∧ pct > 15 then acc ++ [.cache pct]
      else acc) []
    if recs.isEmpty then [.noBottleneck] else recs

/- Embedding of src/scripts/spy/monitor.py. -/

/-- One entry of psutil.net_connections(): its status string, local port,
and owning PID (psutil may report none). -/
structure Conn where
  status : String
  laddrPort : Nat
  pid : Option Int
  deriving DecidableEq

/-- find_process_by_port: the PID of the first connection in LISTEN state
on the port, none when there is no such connection. -/
def find_process_by_port (conns : List Conn) (port : Nat) : Option Int :=
  match conns.find? (fun c => c.status == "LISTEN" && c.laddrPort == port) with
  | some c => c.pid
  | none => none

/-- The polling loop of wait_for_app_start in discrete half-second ticks:
the connection table is indexed by tick, fuel bounds the number of polls,
and k is the current tick. A poll returning a truthy PID (some nonzero p;
a None or 0 PID is falsy in the source) stops the loop with the tick it
fired at; otherwise the loop sleeps one tick. -/
def waitAux (connsAt : Nat → List Conn) (port : Nat) : Nat → Nat → Option (Nat × Int)
  | 0, _ => none
  | fuel + 1, k =>
      match find_process_by_port (connsAt k) port with
      | some p => if p ≠ 0 then some (k, p) else waitAux connsAt port fuel (k + 1)
      | none => waitAux connsAt port fuel (k + 1)

/-- wait_for_app_start(port, timeout): polls every 0.5 s while the elapsed
time stays below timeout seconds, so ticks 0, 1, ..., 2 * timeout - 1 are
polled; returns the PID found or none on timeout. -/
def wait_for_app_start (connsAt : Nat → List Conn) (port : Nat) (timeout : Nat) : Option Int :=
  (waitAux connsAt port (2 * timeout) 0).map Prod.snd

/-- A snapshot of the OS process table: the set of live PIDs and the
parent of each (none for roots or unknown parents). -/
structure ProcTable where
  procs : List Int
  parent : Int → Option Int

/-- psutil children(): the live PIDs whose parent is the given PID. -/
def childrenOf (t : ProcTable) (pid : Int) : List Int :=
  t.procs.filter (fun q => t.parent q == some pid)

/-- children(recursive=True), with fuel bounding the recursion depth by
the size of the process table. -/
def descAux (t : ProcTable) : Nat → Int → List Int
  | 0, _ => []
  | fuel + 1, pid => (childrenOf t pid).flatMap (fun c => c :: descAux t fuel c)

def descendantsOf (t : ProcTable) (pid : Int) : List Int :=
  descAux t t.procs.length pid

/-- kill_process_tree(pid): when the PID is live, terminate every
descendant (graceful then forced) and then the parent, whose net effect
on the table is removal of the PID and its descendants; when psutil
raises NoSuchProcess because the PID is not in the table, the except
branch passes, so the call is a no-op that still reports success (true).
Signal delivery is assumed to succeed; OS-level signalling failures of
the fallback branch are outside the model. -/
def kill_process_tree (t : ProcTable) (pid : Int) : ProcTable × Bool :=
  if pid ∈ t.procs then
    let ds := descendantsOf t pid
    ({ t with procs := t.procs.filter (fun q => q ≠ pid ∧ q ∉ ds) }, true)
  else (t, true)

/- Concrete inputs used by the counterexamples and witnesses below. -/

/-- An artifact with 51 distinct database-classified frames of one sample
each: one more frame than the top-50 window of analyze. -/
def c1Lines : List String :=
  (List.range 51).map (fun i => "sql" ++ toString i ++ "\t1")

/-- The tab-delimited scenario artifact of the spec, one line per entry. -/
def c2Lines : List String :=
  ["handle_request\t50\n", "run_query\t30\n", "await_io\t20"]

/-- The frequency table the scenario artifact parses to. -/
def c2Table : Table :=
  [("handle_request", 50), ("run_query", 30), ("await_io", 20)]

/-- A simulated connection table: no listener during ticks 0 to 2, then a
listener with PID 42 on port 8000 from tick 3 on. -/
def c8Conns : Nat → List Conn :=
  fun k => if k < 3 then [] else [⟨"LISTEN", 8000, some 42⟩]

/-- A process table holding PIDs 1 to 3 and not holding PID 99. -/
def c9Table : ProcTable := ⟨[1, 2, 3], fun _ => none⟩

/- Basic lemmas about the table operations. -/

theorem lookupD_addCount (d : Table) (k k₁ : String) (v : Int) :
    lookupD (addCount d k v) k₁ =
      if k = k₁ then lookupD d k₁ + v else lookupD d k₁ := by
  induction d with
  | nil =>
      simp only [addCount, lookupD]
      split <;> simp
  | cons p rest ih =>
      obtain ⟨k₂, v₂⟩ := p
      by_cases h : k₂ = k
      · subst h
        simp only [addCount, if_pos rfl, lookupD]
        by_cases h₁ : k₂ = k₁ <;> simp [h₁, lookupD]
      · simp only [addCount, if_neg h, lookupD]
        by_cases h₁ : k₂ = k₁
        · subst h₁
          have h₂ : ¬ k = k₂ := fun hc => h hc.symm
          simp [lookupD, h₂]
        · simp [h₁, lookupD, ih]

theorem sumOf_addCount (d : Table) (k : String) (v : Int) :
    sumOf (addCount d k v) = sumOf d + v := by
  induction d with
  | nil => simp [addCount, sumOf]
  | cons p rest ih =>
      obtain ⟨k₂, v₂⟩ := p
      by_cases h : k₂ = k
      · simp [addCount, h, sumOf]
        ring
      · simp [addCount, h, sumOf] at ih ⊢
        omega

theorem keysOf_addCount (d : Table) (k : String) (v : Int) :
    keysOf (addCount d k v) =
      if k ∈ keysOf d then keysOf d else keysOf d ++ [k] := by
  induction d with
  | nil => simp [addCount, keysOf]
  | cons p rest ih =>
      obtain ⟨k₂, v₂⟩ := p
      by_cases h : k₂ = k
      · subst h
        simp [addCount, keysOf]
      · simp only [addCount, if_neg h, keysOf, List.map_cons, List.mem_cons]
        have h₂ : ¬ k = k₂ := fun hc => h hc.symm
        simp only [keysOf] at ih
        rw [ih]
        by_cases hm : k ∈ rest.map Prod.fst <;> simp [hm, h₂]

theorem keysOf_nodup_addCount (d : Table) (k : String) (v : Int)
    (h : (keysOf d).Nodup) : (keysOf (addCount d k v)).Nodup := by
  rw [keysOf_addCount]
  by_cases hm : k ∈ keysOf d
  · simpa [hm]
  · simp only [hm, if_false]
    simp [List.nodup_append, h, hm]

theorem toFinset_keysOf_addCount (d : Table) (k : String) (v : Int) :
    (keysOf (addCount d k v)).toFinset = insert k (keysOf d).toFinset := by
  rw [keysOf_addCount]
  by_cases hm : k ∈ keysOf d
  · simp only [hm, if_true]
    have : k ∈ (keysOf d).toFinset := List.mem_toFinset.mpr hm
    rw [Finset.insert_eq_self.mpr this]
  · simp only [hm, if_false, List.toFinset_append]
    simp only [List.toFinset_cons, List.toFinset_nil, insert_emptyc_eq]
    rw [Finset.insert_eq, Finset.union_comm]

/-- The central fold lemma: looking up a key in a table built by folding
addCount over a list gives the initial value plus the sum of the folded
values whose key matches. Instantiated for the category totals of analyze
and for the SVG occurrence counts. -/
theorem lookupD_foldl_addCount {α : Type} (key : α → String) (val : α → Int)
    (l : List α) (init : Table) (k : String) :
    lookupD (l.foldl (fun acc a => addCount acc (key a) (val a)) init) k
      = lookupD init k + ((l.filter (fun a => key a == k)).map val).sum := by
  induction l generalizing init with
  | nil => simp
  | cons a tl ih =>
      simp only [List.foldl_cons, List.filter_cons]
      rw [ih, lookupD_addCount]
      by_cases h : key a = k
      · simp only [h, if_pos rfl, beq_self_eq_true, if_true, List.map_cons, List.sum_cons]
        ring
      · simp [h]

/- Lemmas about the tab-delimited ingestion. -/

theorem parseStep_eq (d : Table) (line : String) :
    parseStep d line =
      match lineEffect line with
      | .skip => some d
      | .add f n => some (addCount d f n)
      | .abort => none := by
  unfold parseStep lineEffect
  by_cases h : '\t' ∈ line.data
  · simp only [h, if_true]
    cases hs : splitTab (pyStrip line) with
    | nil => rfl
    | cons f rest =>
        cases rest with
        | nil => rfl
        | cons c rest₁ =>
            dsimp only
            cases hp : pyInt c <;> rfl
  · simp [h]

theorem parseLines_sumOf (l : List String) (d₀ d : Table)
    (h : parseLines d₀ l = some d) :
    sumOf d = sumOf d₀ + (l.filterMap lineVal).sum := by
  induction l generalizing d₀ with
  | nil =>
      simp only [parseLines] at h
      cases h
      simp
  | cons line rest ih =>
      simp only [parseLines, parseStep_eq] at h
      simp only [List.filterMap_cons, lineVal]
      cases he : lineEffect line with
      | skip =>
          rw [he] at h
          simp only [ih _ h]
      | add f n =>
          rw [he] at h
          rw [ih _ h, sumOf_addCount]
          simp only [List.sum_cons]
          ring
      | abort =>
          rw [he] at h
          cases h

theorem parseLines_keys (l : List String) (d₀ d : Table)
    (h : parseLines d₀ l = some d) :
    (keysOf d).toFinset = (keysOf d₀).toFinset ∪ (l.filterMap lineName).toFinset := by
  induction l generalizing d₀ with
  | nil =>
      simp only [parseLines] at h
      cases h
      simp
  | cons line rest ih =>
      simp only [parseLines, parseStep_eq] at h
      simp only [List.filterMap_cons, lineName]
      cases he : lineEffect line with
      | skip =>
          rw [he] at h
          simp only [ih _ h]
      | add f n =>
          rw [he] at h
          rw [ih _ h, toFinset_keysOf_addCount]
          simp only [List.toFinset_cons]
          rw [Finset.union_insert, Finset.insert_union]
      | abort =>
          rw [he] at h
          cases h

theorem parseLines_nodupKeys (l : List String) (d₀ d : Table)
    (h₀ : (keysOf d₀).Nodup) (h : parseLines d₀ l = some d) :
    (keysOf d).Nodup := by
  induction l generalizing d₀ with
  | nil =>
      simp only [parseLines] at h
      cases h
      exact h₀
  | cons line rest ih =>
      simp only [parseLines, parseStep_eq] at h
      cases he : lineEffect line with
      | skip =>
          rw [he] at h
          exact ih _ h₀ h
      | add f n =>
          rw [he] at h
          exact ih _ (keysOf_nodup_addCount _ _ _ h₀) h
      | abort =>
          rw [he] at h
          cases h

theorem parseLines_skip_middle (line : String) (hs : lineEffect line = .skip)
    (pre post : List String) (d₀ : Table) :
    parseLines d₀ (pre ++ line :: post) = parseLines d₀ (pre ++ post) := by
  induction pre generalizing d₀ with
  | nil =>
      simp only [List.nil_append, parseLines, parseStep_eq, hs]
  | cons a pre₁ ih =>
      simp only [List.cons_append, parseLines]
      cases parseStep d₀ a with
      | some d₁ => exact ih d₁
      | none => rfl

theorem parseLines_abort (line : String) (ha : lineEffect line = .abort)
    (pre post : List String) (d₀ : Table) :
    parseLines d₀ (pre ++ line :: post) = none := by
  induction pre generalizing d₀ with
  | nil =>
      simp only [List.nil_append, parseLines, parseStep_eq, ha]
  | cons a pre₁ ih =>
      simp only [List.cons_append, parseLines]
      cases parseStep d₀ a with
      | some d₁ => exact ih d₁
      | none => rfl

/- Lemmas about the stable descending sort of analyze. -/

theorem insertDesc_perm (x : String × Int) (l : List (String × Int)) :
    (insertDesc x l).Perm (x :: l) := by
  induction l with
  | nil => simp [insertDesc]
  | cons y ys ih =>
      by_cases h : x.2 ≥ y.2
      · simp [insertDesc, h]
      · simp only [insertDesc, if_neg h]
        exact (ih.cons y).trans (List.Perm.swap x y ys)

theorem sortDesc_perm (l : List (String × Int)) : (sortDesc l).Perm l := by
  induction l with
  | nil => simp [sortDesc]
  | cons x xs ih =>
      exact (insertDesc_perm x (sortDesc xs)).trans (ih.cons x)

theorem insertDesc_pairwise (x : String × Int) (l : List (String × Int))
    (h : l.Pairwise (fun a b => b.2 ≤ a.2)) :
    (insertDesc x l).Pairwise (fun a b => b.2 ≤ a.2) := by
  induction l with
  | nil => simp [insertDesc]
  | cons y ys ih =>
      rw [List.pairwise_cons] at h
      by_cases hc : x.2 ≥ y.2
      · simp only [insertDesc, if_pos hc]
        refine List.Pairwise.cons ?_ (List.Pairwise.cons h.1 h.2)
        intro z hz
        rcases List.mem_cons.mp hz with hz | hz
        · subst hz; exact hc
        · exact le_trans (h.1 z hz) hc
      · simp only [insertDesc, if_neg hc]
        refine List.Pairwise.cons ?_ (ih h.2)
        intro z hz
        have hz₁ : z ∈ x :: ys := (insertDesc_perm x ys).mem_iff.mp hz
        rcases List.mem_cons.mp hz₁ with hz₁ | hz₁
        · subst hz₁; omega
        · exact h.1 z hz₁

theorem sortDesc_pairwise (l : List (String × Int)) :
    (sortDesc l).Pairwise (fun a b => b.2 ≤ a.2) := by
  induction l with
  | nil => simp [sortDesc]
  | cons x xs ih => exact insertDesc_pairwise x (sortDesc xs) ih

theorem insertDesc_filter_count (x : String × Int) (l : List (String × Int)) (c : Int) :
    (insertDesc x l).filter (fun p => p.2 == c) = ((x :: l).filter (fun p => p.2 == c)) := by
  induction l with
  | nil => rfl
  | cons y ys ih =>
      by_cases hc : x.2 ≥ y.2
      · simp [insertDesc, hc]
      · simp only [insertDesc, if_neg hc]
        by_cases hy : y.2 = c
        · have hx : ¬ x.2 = c := by omega
          simp [List.filter_cons, hy, hx, ih]
        · simp [List.filter_cons, hy, ih]

theorem sortDesc_filter_count (l : List (String × Int)) (c : Int) :
    (sortDesc l).filter (fun p => p.2 == c) = l.filter (fun p => p.2 == c) := by
  induction l with
  | nil => rfl
  | cons x xs ih =>
      calc (sortDesc (x :: xs)).filter (fun p => p.2 == c)
          = ((x :: sortDesc xs).filter (fun p => p.2 == c)) :=
            insertDesc_filter_count x (sortDesc xs) c
        _ = (x :: xs).filter (fun p => p.2 == c) := by
            simp only [List.filter_cons, ih]

theorem sum_map_one {α : Type} (l : List α) :
    (l.map (fun _ => (1 : Int))).sum = l.length := by
  induction l with
  | nil => rfl
  | cons a tl ih =>
      simp [ih]
      ring

/- Lemmas about the polling loop of wait_for_app_start. -/

theorem waitAux_none (connsAt : Nat → List Conn) (port : Nat) (fuel k : Nat)
    (h : ∀ j, k ≤ j → j < k + fuel → find_process_by_port (connsAt j) port = none) :
    waitAux connsAt port fuel k = none := by
  induction fuel generalizing k with
  | zero => rfl
  | succ fuel ih =>
      have hk : find_process_by_port (connsAt k) port = none := h k le_rfl (by omega)
      simp only [waitAux, hk]
      exact ih (k + 1) (fun j hj₁ hj₂ => h j (by omega) (by omega))

theorem waitAux_finds (connsAt : Nat → List Conn) (port : Nat) (fuel k k₀ : Nat) (p : Int)
    (hk : k ≤ k₀) (hfuel : k₀ < k + fuel) (hp : p ≠ 0)
    (hbefore : ∀ j, j < k₀ → find_process_by_port (connsAt j) port = none)
    (hafter : ∀ j, k₀ ≤ j → find_process_by_port (connsAt j) port = some p) :
    waitAux connsAt port fuel k = some (k₀, p) := by
  induction fuel generalizing k with
  | zero => omega
  | succ fuel ih =>
      by_cases he : k = k₀
      · subst he
        simp only [waitAux, hafter k le_rfl]
        simp [hp]
      · have hlt : k < k₀ := by omega
        simp only [waitAux, hbefore k hlt]
        exact ih (k + 1) (by omega) (by omega)

/- Claim theorems. -/

/-- C1, counterexample: on the ingested artifact c1Lines (51 distinct
database frames of one sample each) the category total computed by analyze
is 50, while the sum of the sample counts of all frames of the table
classified database is 51 — the totals are accumulated only over the
top-50 ranked frames, so the claim quantified over every frame fails. -/
theorem c1_counterexample :
    (_parse_json c1Lines).map (fun d =>
        (lookupD (analyze d).categories "database",
         ((d.filter (fun p => _categorize_function p.1 == "database")).map Prod.snd).sum))
      = some (50, 51)
    ∧ (50 : Int) ≠ 51 := by
  exact ⟨by decide, by decide⟩

/-- C1 (amended): for every frequency table and category, the aggregated
category total of analyze equals the sum of the sample counts of the
frames among the ranked top-50 entries classified into that category; when
the table has at most 50 distinct frames this covers every frame, so the
original claim holds exactly in that case. -/
theorem c1_category_totals (d : Table) (cat : String) :
    lookupD (analyze d).categories cat
      = (((analyze d).top_functions.filter
            (fun p => _categorize_function p.1 == cat)).map Prod.snd).sum
    ∧ (d.length ≤ 50 →
        lookupD (analyze d).categories cat
          = ((d.filter (fun p => _categorize_function p.1 == cat)).map Prod.snd).sum) := by
  have h₁ := lookupD_foldl_addCount (fun p : String × Int => _categorize_function p.1)
      Prod.snd ((sortDesc d).take 50) [] cat
  have hmain : lookupD (analyze d).categories cat
      = (((analyze d).top_functions.filter
            (fun p => _categorize_function p.1 == cat)).map Prod.snd).sum := by
    simpa [analyze, lookupD] using h₁
  refine ⟨hmain, fun hlen => ?_⟩
  have hlen₂ : (sortDesc d).length ≤ 50 := by
    rw [(sortDesc_perm d).length_eq]
    exact hlen
  have htake : (sortDesc d).take 50 = sortDesc d := List.take_of_length_le hlen₂
  have hperm : (((sortDesc d).filter (fun p => _categorize_function p.1 == cat)).map Prod.snd).Perm
      ((d.filter (fun p => _categorize_function p.1 == cat)).map Prod.snd) :=
    ((sortDesc_perm d).filter _).map _
  rw [hmain]
  have htop : (analyze d).top_functions = (sortDesc d).take 50 := rfl
  rw [htop, htake]
  exact hperm.sum_eq

/-- C1 witness: the amended theorem applied to a two-frame table. -/
theorem c1_witness :
    lookupD (analyze [("run_query", (3 : Int)), ("redis_layer", 2)]).categories "database"
      = (([(("run_query" : String), (3 : Int)), ("redis_layer", 2)].filter
            (fun p => _categorize_function p.1 == "database")).map Prod.snd).sum :=
  (c1_category_totals [("run_query", 3), ("redis_layer", 2)] "database").2 (by decide)

/-- C2, counterexample: the scenario claims handle_request is classified
other, but the code classifies it http (the name contains the http keyword
request), so the other category receives nothing on the scenario table. -/
theorem c2_counterexample :
    _categorize_function "handle_request" ≠ "other"
    ∧ lookupD (analyze c2Table).categories "other" = 0 := by
  exact ⟨by decide, by decide⟩

/-- C2 (amended): on the scenario artifact, total_samples is 100 with
run_query classified database (30 samples), await_io classified async_io
(20 samples) and handle_request classified http (50 samples, not other);
the recommendation output is exactly the database recommendation (share
30 percent exceeds the 20 percent threshold) and in particular does not
include the async_io recommendation (share 20 percent is below its 30
percent threshold). -/
theorem c2_scenario :
    _parse_json c2Lines = some c2Table
    ∧ (analyze c2Table).total_samples = 100
    ∧ (analyze c2Table).unique_functions = 3
    ∧ _categorize_function "run_query" = "database"
    ∧ _categorize_function "await_io" = "async_io"
    ∧ _categorize_function "handle_request" = "http"
    ∧ lookupD (analyze c2Table).categories "database" = 30
    ∧ lookupD (analyze c2Table).categories "async_io" = 20
    ∧ lookupD (analyze c2Table).categories "http" = 50
    ∧ _generate_recommendations (analyze c2Table).total_samples (analyze c2Table).categories
        = [Recommendation.database 30] := by
  refine ⟨by decide, by decide, by decide, by decide, by decide, by decide,
    by decide, by decide, by decide, ?_⟩
  have hc : (analyze c2Table).categories
      = [("http", 50), ("database", 30), ("async_io", 20)] := by decide
  have ht : (analyze c2Table).total_samples = 100 := by decide
  rw [hc, ht]
  norm_num [_generate_recommendations, List.foldl]
  simp

/-- C3: every matched title fragment contributes exactly 1 to the count of
its stripped frame name, so each final count equals the number of matched
fragments bearing that name; and the result is independent of the embedded
numeric sample values, since only the fragment names are read. -/
theorem c3_svg_counts :
    (∀ (fragments : List (String × Nat)) (name : String),
        lookupD (_parse_svg fragments) name
          = ((fragments.filter (fun f => pyStrip f.1 == name)).length : Int))
    ∧ (∀ f₁ f₂ : List (String × Nat), f₁.map Prod.fst = f₂.map Prod.fst →
        _parse_svg f₁ = _parse_svg f₂) := by
  constructor
  · intro frags name
    have h := lookupD_foldl_addCount (fun f : String × Nat => pyStrip f.1)
        (fun _ => (1 : Int)) frags [] name
    have h₂ : lookupD (_parse_svg frags) name
        = ((frags.filter (fun f => pyStrip f.1 == name)).map (fun _ => (1 : Int))).sum := by
      simpa [_parse_svg, lookupD] using h
    rw [h₂, sum_map_one]
  · have key : ∀ (l₁ l₂ : List (String × Nat)) (d : Table),
        l₁.map Prod.fst = l₂.map Prod.fst →
        l₁.foldl (fun d f => addCount d (pyStrip f.1) 1) d
          = l₂.foldl (fun d f => addCount d (pyStrip f.1) 1) d := by
      intro l₁
      induction l₁ with
      | nil =>
          intro l₂ d h
          cases l₂ with
          | nil => rfl
          | cons b t₂ => simp at h
      | cons a t₁ ih =>
          intro l₂ d h
          cases l₂ with
          | nil => simp at h
          | cons b t₂ =>
              simp only [List.map_cons, List.cons.injEq] at h
              simp only [List.foldl_cons]
              rw [h.1]
              exact ih t₂ _ h.2
    intro f₁ f₂ hmap
    exact key f₁ f₂ [] hmap

/-- C3 witness: two fragments named frame_a (one with trailing space, both
with different sample values) count as 2; changing the sample values alone
leaves the parse unchanged. -/
theorem c3_witness :
    lookupD (_parse_svg [("frame_a ", 10), ("frame_a", 7), ("frame_b", 2)]) "frame_a" = 2
    ∧ _parse_svg [("frame_a", 10)] = _parse_svg [("frame_a", 999)] := by
  constructor
  · rw [c3_svg_counts.1 [("frame_a ", 10), ("frame_a", 7), ("frame_b", 2)] "frame_a"]
    decide
  · exact c3_svg_counts.2 [("frame_a", 10)] [("frame_a", 999)] (by decide)

/-- C4: for every pair of successfully ingested tab-delimited artifacts
that are permutations of each other, total_samples equals the sum of all
frame counts of the table, unique_functions equals the number of distinct
frame names, and both values agree across the permutation. -/
theorem c4_totals_perm (l₁ l₂ : List String) (d₁ d₂ : Table)
    (hperm : l₁.Perm l₂)
    (h₁ : _parse_json l₁ = some d₁) (h₂ : _parse_json l₂ = some d₂) :
    (analyze d₁).total_samples = sumOf d₁
    ∧ (analyze d₁).unique_functions = (keysOf d₁).toFinset.card
    ∧ (analyze d₁).total_samples = (analyze d₂).total_samples
    ∧ (analyze d₁).unique_functions = (analyze d₂).unique_functions := by
  have ht₁ := parseLines_sumOf l₁ [] d₁ h₁
  have ht₂ := parseLines_sumOf l₂ [] d₂ h₂
  have hk₁ := parseLines_keys l₁ [] d₁ h₁
  have hk₂ := parseLines_keys l₂ [] d₂ h₂
  have hn₁ : (keysOf d₁).Nodup := parseLines_nodupKeys l₁ [] d₁ (by simp [keysOf]) h₁
  refine ⟨rfl, ?_, ?_, ?_⟩
  · show d₁.length = (keysOf d₁).toFinset.card
    rw [List.toFinset_card_of_nodup hn₁]
    simp [keysOf]
  · show sumOf d₁ = sumOf d₂
    have hv : (l₁.filterMap lineVal).sum = (l₂.filterMap lineVal).sum :=
      (hperm.filterMap lineVal).sum_eq
    rw [ht₁, ht₂, hv]
  · show d₁.length = d₂.length
    have hn₂ : (keysOf d₂).Nodup := parseLines_nodupKeys l₂ [] d₂ (by simp [keysOf]) h₂
    have hf : (l₁.filterMap lineName).toFinset = (l₂.filterMap lineName).toFinset :=
      List.toFinset_eq_of_perm _ _ (hperm.filterMap lineName)
    have hcard : (keysOf d₁).toFinset = (keysOf d₂).toFinset := by
      rw [hk₁, hk₂, hf]
    have e₁ : (keysOf d₁).length = (keysOf d₂).length := by
      rw [← List.toFinset_card_of_nodup hn₁, ← List.toFinset_card_of_nodup hn₂, hcard]
    simpa [keysOf] using e₁

/-- C4 witness: the theorem applied to a two-line artifact and its
reversal. -/
theorem c4_witness :
    (analyze [(("a" : String), (1 : Int)), ("b", 2)]).total_samples
      = sumOf [("a", 1), ("b", 2)]
    ∧ (analyze [(("a" : String), (1 : Int)), ("b", 2)]).unique_functions
      = (keysOf [("a", 1), ("b", 2)]).toFinset.card
    ∧ (analyze [(("a" : String), (1 : Int)), ("b", 2)]).total_samples
      = (analyze [("b", 2), ("a", 1)]).total_samples
    ∧ (analyze [(("a" : String), (1 : Int)), ("b", 2)]).unique_functions
      = (analyze [("b", 2), ("a", 1)]).unique_functions :=
  c4_totals_perm ["a\t1", "b\t2"] ["b\t2", "a\t1"]
    [("a", 1), ("b", 2)] [("b", 2), ("a", 1)]
    (List.Perm.swap "b\t2" "a\t1" []) (by decide) (by decide)

/-- C5: analyze takes the ranked list as the first 50 entries of a
descending stable sort of the table: the sorted list is a permutation of
the table, its counts are non-increasing, and entries with equal counts
keep the table order, which addCount builds in first-encounter order of
the artifact (existing keys are updated in place, new keys appended). -/
theorem c5_top_functions (d : Table) :
    (sortDesc d).Perm d
    ∧ (sortDesc d).Pairwise (fun a b => b.2 ≤ a.2)
    ∧ (∀ c : Int, (sortDesc d).filter (fun p => p.2 == c) = d.filter (fun p => p.2 == c))
    ∧ (analyze d).top_functions = (sortDesc d).take 50 :=
  ⟨sortDesc_perm d, sortDesc_pairwise d, fun c => sortDesc_filter_count d c, rfl⟩

/-- C6: classification is a function of the lowercase-normalized frame
name alone, and for every frame name whose lowercase form contains both an
async keyword and a database keyword the result is async_io, because the
async rule comes first in the fixed priority order. -/
theorem c6_priority :
    (∀ s t : String, lowerStr s = lowerStr t →
        _categorize_function s = _categorize_function t)
    ∧ (∀ s : String, hasAnyKw (lowerStr s) asyncKeywords = true →
        hasAnyKw (lowerStr s) dbKeywords = true →
        _categorize_function s = "async_io") := by
  constructor
  · intro s t h
    simp only [_categorize_function]
    rw [h]
  · intro s h₁ h₂
    simp [_categorize_function, h₁]

/-- C6 witness: a mixed-case name containing both await and query is
classified async_io. -/
theorem c6_witness : _categorize_function "Await_Query" = "async_io" :=
  c6_priority.2 "Await_Query" (by decide) (by decide)

/-- C7: when the total sample count is 0, the recommendation list is
exactly the single insufficient-data message, whatever the category table
holds, so no threshold recommendation is ever emitted in that case. -/
theorem c7_zero_total (total : Int) (categories : Table) (h : total = 0) :
    _generate_recommendations total categories = [Recommendation.insufficientData] := by
  simp [_generate_recommendations, h]

/-- C7 witness: zero total with a category table that would trigger the
database threshold if it were evaluated. -/
theorem c7_witness :
    _generate_recommendations 0 [("database", 7), ("cache", -7)]
      = [Recommendation.insufficientData] :=
  c7_zero_total 0 [("database", 7), ("cache", -7)] rfl

/-- C8: over a simulated connection table polled every half-second tick,
the wait loop returns none when no listener is found at any tick of the
timeout window, and when the table transitions at a tick inside the window
to a listener with nonzero PID, the loop fires exactly at that first
listening tick (within one polling interval of the listener appearing) and
returns its PID. -/
theorem c8_wait_for_port (connsAt : Nat → List Conn) (port timeout : Nat) :
    ((∀ k, k < 2 * timeout → find_process_by_port (connsAt k) port = none) →
        wait_for_app_start connsAt port timeout = none)
    ∧ (∀ k₀ p, k₀ < 2 * timeout → p ≠ 0 →
        (∀ k, k < k₀ → find_process_by_port (connsAt k) port = none) →
        (∀ k, k₀ ≤ k → find_process_by_port (connsAt k) port = some p) →
        waitAux connsAt port (2 * timeout) 0 = some (k₀, p)
        ∧ wait_for_app_start connsAt port timeout = some p) := by
  constructor
  · intro h
    unfold wait_for_app_start
    rw [waitAux_none connsAt port (2 * timeout) 0 (fun j hj₁ hj₂ => h j (by omega))]
    rfl
  · intro k₀ p hk₀ hp hbefore hafter
    have hfind := waitAux_finds connsAt port (2 * timeout) 0 k₀ p (by omega) (by omega)
      hp hbefore hafter
    refine ⟨hfind, ?_⟩
    unfold wait_for_app_start
    rw [hfind]
    rfl

/-- C8 witness: an always-empty table times out with none, and the table
that starts listening at tick 3 with PID 42 is caught at tick 3. -/
theorem c8_witness :
    wait_for_app_start (fun _ => []) 8000 30 = none
    ∧ waitAux c8Conns 8000 (2 * 30) 0 = some (3, 42)
    ∧ wait_for_app_start c8Conns 8000 30 = some 42 := by
  have hbefore : ∀ k, k < 3 → find_process_by_port (c8Conns k) 8000 = none := by
    intro k hk
    simp [c8Conns, hk, find_process_by_port]
  have hafter : ∀ k, 3 ≤ k → find_process_by_port (c8Conns k) 8000 = some 42 := by
    intro k hk
    simp [c8Conns, Nat.not_lt.mpr hk, find_process_by_port]
  have h₂ := (c8_wait_for_port c8Conns 8000 30).2 3 42 (by decide) (by decide) hbefore hafter
  exact ⟨(c8_wait_for_port (fun _ => []) 8000 30).1 (fun k hk => rfl), h₂.1, h₂.2⟩

/-- C9: terminating a PID that is not in the process table is a no-op
success: psutil raises NoSuchProcess, the handler passes, the table is
unchanged and the call reports success. -/
theorem c9_kill_absent (t : ProcTable) (pid : Int) (h : pid ∉ t.procs) :
    kill_process_tree t pid = (t, true) := by
  simp [kill_process_tree, h]

/-- C9 witness: killing PID 99 in a table holding PIDs 1 to 3. -/
theorem c9_witness : kill_process_tree c9Table 99 = (c9Table, true) :=
  c9_kill_absent c9Table 99 (by decide)

/-- C10: a line without a tab character, or whose stripped form splits
into fewer than two tab-separated fields, is silently skipped wherever it
occurs and contributes nothing to the table; a line with a tab and at
least two fields whose count field fails integer parsing makes the whole
ingestion return none, wherever it occurs, so no partial table is made
available. -/
theorem c10_line_handling (line : String) :
    ((('\t' ∉ line.data) ∨ (splitTab (pyStrip line)).length < 2) →
        ∀ (pre post : List String) (d₀ : Table),
          parseLines d₀ (pre ++ line :: post) = parseLines d₀ (pre ++ post))
    ∧ (∀ f c rest, '\t' ∈ line.data → splitTab (pyStrip line) = f :: c :: rest →
        pyInt c = none →
        ∀ (pre post : List String) (d₀ : Table),
          parseLines d₀ (pre ++ line :: post) = none) := by
  constructor
  · intro h pre post d₀
    apply parseLines_skip_middle
    unfold lineEffect
    rcases h with h | h
    · simp [h]
    · by_cases ht : '\t' ∈ line.data
      · simp only [ht, if_true]
        cases hs : splitTab (pyStrip line) with
        | nil => rfl
        | cons f rest =>
            cases rest with
            | nil => rfl
            | cons c r =>
                rw [hs] at h
                simp at h
                omega
      · simp [ht]
  · intro f c rest ht hs hp pre post d₀
    apply parseLines_abort
    unfold lineEffect
    simp [ht, hs, hp]

/-- C10 witness: a tabless line in the middle of an artifact is skipped,
and a line with a non-numeric count aborts the whole ingestion. -/
theorem c10_witness :
    parseLines [] (["a\t3"] ++ "no_tab_line" :: ["b\t4"])
      = parseLines [] (["a\t3"] ++ ["b\t4"])
    ∧ parseLines [] (["a\t3"] ++ "b\tforty" :: ["c\t5"]) = none := by
  constructor
  · exact (c10_line_handling "no_tab_line").1 (by decide) ["a\t3"] ["b\t4"] []
  · exact (c10_line_handling "b\tforty").2 "b" "forty" []
      (by decide) (by decide) (by decide) ["a\t3"] ["c\t5"] []

end Spy
